import Mathlib

/-!
Verification of the ScienceMode2 protocol engine (`pyScienceMode2/sciencemode.py`,
class `RehastimGeneric`) against its specification.

Bytes are modelled as `Nat` (Python ints are unbounded; all wire bytes lie in
`0..255`).  Times are modelled in integer milliseconds (`Int`), so the source's
thresholds `0.5 s` and `1.2 s` become `500` and `1200`.
-/

set_option maxRecDepth 100000

namespace RehastimGeneric

/-- Protocol constant `START_BYTE = 0xF0` from the source class attributes. -/
def START_BYTE : Nat := 0xF0

/-- Protocol constant `STOP_BYTE = 0x0F`. -/
def STOP_BYTE : Nat := 0x0F

/-- Protocol constant `STUFFING_BYTE = 0x81`. -/
def STUFFING_BYTE : Nat := 0x81

/-- Protocol constant `STUFFING_KEY = 0x55`. -/
def STUFFING_KEY : Nat := 0x55

/-- Protocol constant `MAX_PACKET_BYTES = 69`. -/
def MAX_PACKET_BYTES : Nat := 69

/-- Protocol constant `STUFFED_BYTES = [240, 15, 129, 85, 10]`, the five
reserved byte values. -/
def STUFFED_BYTES : List Nat := [240, 15, 129, 85, 10]

/-- `_stuff_byte`: the source computes `(byte & ~KEY) | (~byte & KEY)` with
Python's two's-complement `~` on unbounded integers.  For a nonnegative
`byte`, `byte & ~KEY` clears the bits of `KEY` from `byte`, i.e.
`byte ^^^ (byte &&& KEY)`, and `~byte & KEY` keeps the bits of `KEY` absent
from `byte`, i.e. `(byte &&& KEY) ^^^ KEY`. -/
def stuff_byte (byte : Nat) : Nat :=
  (byte ^^^ (byte &&& STUFFING_KEY)) ||| ((byte &&& STUFFING_KEY) ^^^ STUFFING_KEY)

/-- On every nonnegative integer, `_stuff_byte` is exactly XOR with the
stuffing key `0x55`. -/
theorem stuff_byte_eq_xor (byte : Nat) : stuff_byte byte = byte ^^^ STUFFING_KEY := by
  unfold stuff_byte STUFFING_KEY
  apply Nat.eq_of_testBit_eq
  intro i
  simp only [Nat.testBit_or, Nat.testBit_xor, Nat.testBit_and]
  cases byte.testBit i <;> cases (85 : Nat).testBit i <;> rfl

/-- C6: the escape transform `_stuff_byte` equals XOR with `0x55` on every
byte value, hence is self-inverse, and maps no reserved byte to a reserved
byte. -/
theorem claim_C6_stuff_byte_xor_involutive (b : Nat) (hb : b < 256) :
    (stuff_byte b = b ^^^ 0x55 ∧ stuff_byte (stuff_byte b) = b) ∧
      (b ∈ STUFFED_BYTES → stuff_byte b ∉ STUFFED_BYTES) := by
  constructor
  · constructor
    · exact stuff_byte_eq_xor b
    · rw [stuff_byte_eq_xor, stuff_byte_eq_xor, Nat.xor_assoc]
      simp [STUFFING_KEY]
  · intro hmem
    rw [stuff_byte_eq_xor]
    fin_cases hmem <;> decide

/-- Witness for C6 at the concrete byte `0xF0`. -/
theorem claim_C6_witness :
    (stuff_byte 0xF0 = 0xF0 ^^^ 0x55 ∧ stuff_byte (stuff_byte 0xF0) = 0xF0) ∧
      (0xF0 ∈ STUFFED_BYTES → stuff_byte 0xF0 ∉ STUFFED_BYTES) :=
  claim_C6_stuff_byte_xor_involutive 0xF0 (by decide)

/-- `_stuff_packet_byte`: with `command_data = true` (payload-data mode) the
source builds `packet_tmp` in a loop, emitting `[STUFFING_BYTE, _stuff_byte b]`
for each reserved byte and `b` otherwise; with `command_data = false`
(header mode) it overwrites each reserved byte in place by `_stuff_byte b`. -/
def stuff_packet_byte (packet : List Nat) (command_data : Bool) : List Nat :=
  if command_data then
    List.foldl
      (fun packet_tmp b =>
        if b ∈ STUFFED_BYTES then packet_tmp ++ [STUFFING_BYTE, stuff_byte b]
        else packet_tmp ++ [b])
      [] packet
  else
    packet.map (fun b => if b ∈ STUFFED_BYTES then stuff_byte b else b)

/-- The payload-data stuffing loop, with its accumulator generalised. -/
theorem stuff_packet_byte_data_foldl (packet acc : List Nat) :
    List.foldl
      (fun packet_tmp b =>
        if b ∈ STUFFED_BYTES then packet_tmp ++ [STUFFING_BYTE, stuff_byte b]
        else packet_tmp ++ [b])
      acc packet =
      acc ++ packet.flatMap
        (fun b => if b ∈ STUFFED_BYTES then [STUFFING_BYTE, stuff_byte b] else [b]) := by
  induction packet generalizing acc with
  | nil => simp
  | cons b rest ih =>
    by_cases hb : b ∈ STUFFED_BYTES <;> simp [hb, ih, List.append_assoc]

/-- C5: in payload-data mode each reserved byte becomes the two bytes
`[0x81, b XOR 0x55]` and every other byte passes through; in header mode each
reserved byte is replaced in place by `b XOR 0x55` with no marker. -/
theorem claim_C5_stuffing_modes (packet : List Nat) :
    stuff_packet_byte packet true =
        packet.flatMap
          (fun b => if b ∈ STUFFED_BYTES then [0x81, b ^^^ 0x55] else [b]) ∧
      stuff_packet_byte packet false =
        packet.map (fun b => if b ∈ STUFFED_BYTES then b ^^^ 0x55 else b) := by
  constructor
  · rw [stuff_packet_byte, if_pos rfl, stuff_packet_byte_data_foldl, List.nil_append]
    congr 1
    funext b
    rw [stuff_byte_eq_xor]
    rfl
  · rw [stuff_packet_byte, if_neg (by simp)]
    congr 1
    funext b
    rw [stuff_byte_eq_xor]
    rfl

/-- Modelled from the spec: the checksum is "computed over the payload-block
using a CRC-8 function" — the external `crccheck.crc.Crc8` (polynomial `0x07`,
initial value `0x00`, most-significant bit first, no reflection, no final
XOR), which is not part of this repository.  One shift-and-reduce round. -/
def crc8_round (c : Nat) : Nat :=
  if c &&& 0x80 = 0 then (c <<< 1) &&& 0xFF else ((c <<< 1) ^^^ 0x07) &&& 0xFF

/-- Modelled from the spec: folding one message byte into the CRC-8 state. -/
def crc8_update (crc b : Nat) : Nat := crc8_round^[8] (crc ^^^ b)

/-- Modelled from the spec: `crccheck.crc.Crc8.calc` over a byte list. -/
def crc8 (l : List Nat) : Nat := l.foldl crc8_update 0

/-- `_packet_construction`: stuffs the header `[packet_count, command]` in
place, appends the marker-stuffed payload data when present, computes the
CRC-8 checksum of the resulting payload-block, escapes checksum and block
length, and assembles start byte, both escaped fields (each preceded by the
stuffing byte), payload-block, stop byte.  The name-to-code lookup
`self.Type[packet_type].value` lives in `pyScienceMode2.enums` (not in src/
— modelled from the spec: an external closed command table), so the encoder
here takes the numeric command code directly. -/
def packet_construction (packet_count packet_command : Nat)
    (packet_data : Option (List Nat)) : List Nat :=
  let packet_payload := stuff_packet_byte [packet_count, packet_command] false
  let packet_payload :=
    match packet_data with
    | none => packet_payload
    | some d => packet_payload ++ stuff_packet_byte d true
  let checksum := stuff_byte (crc8 packet_payload)
  let data_length := stuff_byte packet_payload.length
  [START_BYTE] ++ [STUFFING_BYTE] ++ [checksum] ++ [STUFFING_BYTE] ++ [data_length]
    ++ packet_payload ++ [STOP_BYTE]

/-- C4: for every sequence number, command code and payload the encoder emits
exactly start marker `0xF0`, marker `0x81` then the escaped CRC-8 of the
payload-block, marker `0x81` then the escaped block length, the payload-block
(stuffed header then stuffed payload), stop marker `0x0F`; and likewise with
the header-only block when no payload is given. -/
theorem claim_C4_frame_layout (c t : Nat) (d : List Nat) :
    (packet_construction c t (some d) =
        [0xF0, 0x81,
            crc8 (stuff_packet_byte [c, t] false ++ stuff_packet_byte d true) ^^^ 0x55,
            0x81,
            (stuff_packet_byte [c, t] false ++ stuff_packet_byte d true).length ^^^ 0x55]
          ++ (stuff_packet_byte [c, t] false ++ stuff_packet_byte d true) ++ [0x0F]) ∧
      (packet_construction c t none =
        [0xF0, 0x81,
            crc8 (stuff_packet_byte [c, t] false) ^^^ 0x55,
            0x81,
            (stuff_packet_byte [c, t] false).length ^^^ 0x55]
          ++ stuff_packet_byte [c, t] false ++ [0x0F]) := by
  constructor <;>
    simp [packet_construction, stuff_byte_eq_xor, START_BYTE, STUFFING_BYTE, STOP_BYTE,
      STUFFING_KEY]

/-- C3 counterexample: a 63-byte payload of reserved bytes stuffs to a
128-byte payload-block, and `_packet_construction` still returns a full
134-byte frame — it contains no size check and never signals `FrameTooLong`. -/
theorem claim_C3_counterexample :
    (packet_construction 0 4 (some (List.replicate 63 0xF0))).length = 134 ∧
      69 < (packet_construction 0 4 (some (List.replicate 63 0xF0))).length := by
  constructor <;> decide

/-- C3 amended: when the stuffed payload-block would push the encoded frame
past 69 bytes, the encoder does not fail — it produces the complete frame of
length `6 + block length`, exceeding the declared maximum. -/
theorem claim_C3_amended_no_length_check (c t : Nat) (d : List Nat)
    (h : 69 < 6 + (stuff_packet_byte [c, t] false ++ stuff_packet_byte d true).length) :
    (packet_construction c t (some d)).length =
        6 + (stuff_packet_byte [c, t] false ++ stuff_packet_byte d true).length ∧
      69 < (packet_construction c t (some d)).length := by
  have hlen : (packet_construction c t (some d)).length =
      6 + (stuff_packet_byte [c, t] false ++ stuff_packet_byte d true).length := by
    simp [packet_construction]
    omega
  exact ⟨hlen, by omega⟩

/-- Witness for the amended C3 at the concrete oversized payload. -/
theorem claim_C3_amended_witness :
    (packet_construction 0 4 (some (List.replicate 63 0xF0))).length =
        6 + (stuff_packet_byte [0, 4] false ++
              stuff_packet_byte (List.replicate 63 0xF0) true).length ∧
      69 < (packet_construction 0 4 (some (List.replicate 63 0xF0))).length :=
  claim_C3_amended_no_length_check 0 4 (List.replicate 63 0xF0) (by decide)

/-- Modelled from the spec: `signed_int` from `pyScienceMode2.utils` (not in
src/) — interprets a byte slice as a little-endian signed ("two's
complement") integer; the decoders feed it one-byte slices. -/
def signed_int (l : List Nat) : Int :=
  let u : Nat := l.foldr (fun b acc => b + 256 * acc) 0
  if 2 * u < 2 ^ (8 * l.length) then (u : Int) else (u : Int) - 2 ^ (8 * l.length)

/-- `_actual_values_ack`, field-decoding part.  Python's `^` binds looser
than `+` and `*`, so the source line
`angle = 255 * signed_int(packet[7:8]) + packet[9] ^ self.STUFFING_KEY`
computes `(255 * signed_int(packet[7:8]) + packet[9]) ^ 0x55`.  The
`count += 1` of the speed branch happens after `speed` is computed, and the
un-escaped speed and torque branches read the fixed slices `packet[10:11]`
and `packet[12:13]`, ignoring `count`.  Indexing (`packet[i]`, which raises
in Python when out of range) is modelled total via `getD _ 0`; every claim
evaluates the decoder on packets long enough for all accesses to be in
bounds. -/
def actual_values_decode (packet : List Nat) : Int × Int × Int :=
  let angle_count : Int × Nat :=
    if packet.getD 8 0 = 129 then
      (Int.xor (255 * signed_int ((packet.drop 7).take 1) + (packet.getD 9 0 : Int))
        (STUFFING_KEY : Int), 1)
    else
      (255 * signed_int ((packet.drop 7).take 1) + (packet.getD 8 0 : Int), 0)
  let angle := angle_count.1
  let count := angle_count.2
  let speed_count : Int × Nat :=
    if packet.getD (10 + count) 0 = 129 then
      (Int.xor (signed_int ((packet.drop (10 + count + 1)).take 1)) (STUFFING_KEY : Int),
        count + 1)
    else
      (signed_int ((packet.drop 10).take 1), count)
  let speed := speed_count.1
  let count := speed_count.2
  let torque : Int :=
    if packet.getD (12 + count) 0 = 129 then
      Int.xor (signed_int ((packet.drop (12 + count + 1)).take 1)) (STUFFING_KEY : Int)
    else
      signed_int ((packet.drop 12).take 1)
  (angle, speed, torque)

/-- C1, evaluation at the failing frame
`[0,0,0,0,0,0,0, 1, 0x81, 0, 5, 7, 9, 0]` (escape marker at the angle's
low-byte position 8): the code yields angle `(255*1 + 0) ^^^ 0x55 = 170`,
not the claimed `255*1 + (0 ^^^ 0x55) = 340`, and reads speed `5` from the
unshifted slice `packet[10:11]` instead of the shifted byte `7`. -/
theorem claim_C1_code_eval :
    actual_values_decode [0, 0, 0, 0, 0, 0, 0, 1, 129, 0, 5, 7, 9, 0] = (170, 5, 9) ∧
      (170 : Int) ≠ 255 * 1 + Int.xor 0 85 ∧
      (5 : Int) ≠ signed_int [7] := by
  refine ⟨?_, by decide, by decide⟩
  decide

/-- The mutable fields of `RehastimGeneric` read by `is_connected` (times in
integer milliseconds; `time_last_cmd` is initialised to `0` and set to the
clock reading on each send). -/
structure LinkState where
  time_last_cmd : Int
  reha_connected : Bool

/-- `is_connected`: the source tests
`self.time_last_cmd - time.time() > 1.2 or not self.reha_connected` (note
the operand order of the subtraction), clears the flag and returns `False`
when the test holds, and returns `True` otherwise.  The clock reading
`time.time()` is passed in as `now`; `1.2 s` becomes `1200` ms. -/
def is_connected (st : LinkState) (now : Int) : Bool × LinkState :=
  if st.time_last_cmd - now > 1200 ∨ st.reha_connected = false then
    (false, { st with reha_connected := false })
  else
    (true, st)

/-- C2, evaluation at the failing state: flag set, `time_last_cmd = 0`,
`now = 10000` ms — the elapsed time `10 s` is far above the `1.2 s` liveness
window, yet the code returns `True` and leaves the flag set, because it
subtracts in the wrong order (`time_last_cmd - now` instead of
`now - time_last_cmd`). -/
theorem claim_C2_code_eval :
    (is_connected ⟨0, true⟩ 10000).1 = true ∧
      (is_connected ⟨0, true⟩ 10000).2.reha_connected = true ∧
      ¬ ((10000 : Int) - 0 < 1200) := by
  refine ⟨rfl, rfl, by decide⟩

/-- The `while len(packet_tmp) != 0` loop of `_read_packet`: find the next
stop byte (`bytes.index`, whose `ValueError` on a missing stop byte is
modelled by `none`), slice out `packet_tmp[:next_stop_byte + 1]` as one
candidate frame and continue past it. -/
def split_frames (packet_tmp : List Nat) : Option (List (List Nat)) :=
  if _h : packet_tmp.length = 0 then some []
  else
    match packet_tmp.findIdx? (· == STOP_BYTE) with
    | none => none
    | some j =>
      (split_frames (packet_tmp.drop (j + 1))).map (packet_tmp.take (j + 1) :: ·)
termination_by packet_tmp.length
decreasing_by simp only [List.length_drop]; omega

/-- The reassembly step of `_read_packet` on the accumulated buffer (its
accumulation loop exits only once the buffer ends with the stop byte): with
more than 8 bytes, find the first start byte (`bytes.index`, raising —
`Except.error ()` — when the buffer holds none), drop everything before it
and split at stop bytes; with 8 bytes or fewer, fall off the function,
which in Python returns `None` (`Except.ok none`). -/
def read_packet_split (packet : List Nat) : Except Unit (Option (List (List Nat))) :=
  if 8 < packet.length then
    match packet.findIdx? (· == START_BYTE) with
    | none => .error ()
    | some i =>
      match split_frames (packet.drop i) with
      | none => .error ()
      | some frames => .ok (some frames)
  else .ok none

/-- Splitting a buffer that starts with one stop-free, stop-terminated frame
peels off exactly that frame. -/
theorem split_frames_cons_frame (b : Nat) (mid rest : List Nat)
    (hb : b ≠ STOP_BYTE) (hmid : STOP_BYTE ∉ mid) :
    split_frames ((b :: (mid ++ [STOP_BYTE])) ++ rest) =
      (split_frames rest).map ((b :: (mid ++ [STOP_BYTE])) :: ·) := by
  rw [split_frames]
  have hfind : ((b :: (mid ++ [STOP_BYTE])) ++ rest).findIdx? (· == STOP_BYTE) =
      some (mid.length + 1) := by
    have hmid' : mid.findIdx? (· == STOP_BYTE) = none := by
      rw [List.findIdx?_eq_none_iff]
      intro x hx
      simp only [beq_eq_false_iff_ne, ne_eq]
      exact fun hxe => hmid (hxe ▸ hx)
    simp [List.findIdx?_append, List.findIdx?_cons, hb, hmid', Nat.add_comm]
  have hlen : (b :: (mid ++ [STOP_BYTE])).length = mid.length + 1 + 1 := by simp
  have hne : ((b :: (mid ++ [STOP_BYTE])) ++ rest).length ≠ 0 := by simp
  rw [dif_neg hne, hfind]
  dsimp only
  rw [List.take_left' hlen, List.drop_left' hlen]

/-- Splitting the empty remainder yields no further frames. -/
theorem split_frames_nil : split_frames [] = some [] := by
  rw [split_frames]
  rfl

/-- Splitting never raises on a buffer that ends with the stop byte: the
scan for the next stop byte always succeeds. -/
theorem split_frames_isSome :
    ∀ (n : Nat) (l : List Nat), l.length ≤ n → l.getLast? = some STOP_BYTE →
      (split_frames l).isSome := by
  intro n
  induction n with
  | zero =>
    intro l hl hstop
    interval_cases hlen : l.length
    · rw [List.length_eq_zero] at hlen
      subst hlen
      simp at hstop
  | succ n ih =>
    intro l hl hstop
    rw [split_frames]
    have hne : l.length ≠ 0 := by
      intro h0
      rw [List.length_eq_zero] at h0
      subst h0
      simp at hstop
    rw [dif_neg hne]
    have hmem : STOP_BYTE ∈ l := List.mem_of_getLast?_eq_some hstop
    have hsome : (l.findIdx? (· == STOP_BYTE)).isSome = true := by
      rw [List.findIdx?_isSome, List.any_eq_true]
      exact ⟨STOP_BYTE, hmem, by simp⟩
    obtain ⟨j, hj⟩ := Option.isSome_iff_exists.mp hsome
    rw [hj]
    dsimp only
    by_cases hd : l.drop (j + 1) = []
    · rw [hd, split_frames_nil]
      rfl
    · have hrec : (split_frames (l.drop (j + 1))).isSome = true := by
        apply ih
        · have := List.length_drop (j + 1) l
          omega
        · have hsplit := List.take_append_drop (j + 1) l
          rw [← hsplit] at hstop
          rwa [List.getLast?_append_of_ne_nil _ hd] at hstop
      obtain ⟨r, hr⟩ := Option.isSome_iff_exists.mp hrec
      rw [hr]
      rfl

/-- C8 counterexample: a 10-byte buffer ending with the stop byte but
containing no start byte makes `bytes.index(START_BYTE)` raise
(`Except.error`), and an 8-byte-or-smaller buffer ending with the stop byte
returns Python `None` rather than a (possibly empty) frame list. -/
theorem claim_C8_counterexample :
    read_packet_split [0, 0, 0, 0, 0, 0, 0, 0, 0, 15] = .error () ∧
      [0, 0, 0, 0, 0, 0, 0, 0, 0, 15].getLast? = some STOP_BYTE ∧
      read_packet_split [15] = .ok none ∧
      ([15] : List Nat).getLast? = some STOP_BYTE :=
  ⟨rfl, rfl, rfl, rfl⟩

/-- C8 amended: on a buffer ending with the stop marker the reassembly step
returns `None` when the buffer has 8 or fewer bytes, and — provided the
buffer contains a start marker — returns an ordered candidate-frame list
without failing when it has more than 8 bytes. -/
theorem claim_C8_amended_reassembly_safe (packet : List Nat)
    (hstop : packet.getLast? = some STOP_BYTE) :
    (packet.length ≤ 8 → read_packet_split packet = .ok none) ∧
      (8 < packet.length → START_BYTE ∈ packet →
        ∃ frames, read_packet_split packet = .ok (some frames)) := by
  constructor
  · intro hle
    rw [read_packet_split, if_neg (by omega)]
  · intro hgt hstart
    rw [read_packet_split, if_pos hgt]
    have hsome : (packet.findIdx? (· == START_BYTE)).isSome = true := by
      rw [List.findIdx?_isSome, List.any_eq_true]
      exact ⟨START_BYTE, hstart, by simp⟩
    obtain ⟨i, hi⟩ := Option.isSome_iff_exists.mp hsome
    rw [hi]
    dsimp only
    have hstop' : (packet.drop i).getLast? = some STOP_BYTE := by
      have hlt : i < packet.length := (List.findIdx?_eq_some_iff_findIdx_eq.mp hi).1
      have hd : packet.drop i ≠ [] := by
        intro h0
        have := List.length_drop i packet
        rw [h0] at this
        simp at this
        omega
      have hsplit := List.take_append_drop i packet
      rw [← hsplit] at hstop
      rwa [List.getLast?_append_of_ne_nil _ hd] at hstop
    obtain ⟨frames, hframes⟩ := Option.isSome_iff_exists.mp
      (split_frames_isSome (packet.drop i).length _ le_rfl hstop')
    rw [hframes]
    exact ⟨frames, rfl⟩

/-- C8 amended witness: the one-byte buffer `[stop]` returns `None`, and the
10-byte buffer `[start, 0 × 8, stop]` reassembles without failing. -/
theorem claim_C8_amended_witness :
    read_packet_split [15] = .ok none ∧
      ∃ frames, read_packet_split [240, 0, 0, 0, 0, 0, 0, 0, 0, 15] = .ok (some frames) :=
  ⟨(claim_C8_amended_reassembly_safe [15] rfl).1 (by decide),
    (claim_C8_amended_reassembly_safe [240, 0, 0, 0, 0, 0, 0, 0, 0, 15] rfl).2
      (by decide) (by decide)⟩

/-- C7: a single read-cycle buffer holding exactly two back-to-back complete
marker-delimited frames (each running from its start marker to its own stop
marker, with no interior stop byte) reassembles to exactly those two frames
in arrival order. -/
theorem claim_C7_two_frames (mid1 mid2 : List Nat)
    (h1 : STOP_BYTE ∉ mid1) (h2 : STOP_BYTE ∉ mid2)
    (hlen : 8 < ((START_BYTE :: (mid1 ++ [STOP_BYTE])) ++
        (START_BYTE :: (mid2 ++ [STOP_BYTE]))).length) :
    read_packet_split ((START_BYTE :: (mid1 ++ [STOP_BYTE])) ++
        (START_BYTE :: (mid2 ++ [STOP_BYTE]))) =
      .ok (some [START_BYTE :: (mid1 ++ [STOP_BYTE]),
        START_BYTE :: (mid2 ++ [STOP_BYTE])]) := by
  rw [read_packet_split, if_pos hlen]
  have hstart : ((START_BYTE :: (mid1 ++ [STOP_BYTE])) ++
      (START_BYTE :: (mid2 ++ [STOP_BYTE]))).findIdx? (· == START_BYTE) = some 0 := by
    simp [List.findIdx?_cons]
  rw [hstart]
  dsimp only
  rw [List.drop_zero,
    split_frames_cons_frame START_BYTE mid1 _ (by decide) h1]
  have hsf2 : split_frames (START_BYTE :: (mid2 ++ [STOP_BYTE])) =
      some [START_BYTE :: (mid2 ++ [STOP_BYTE])] := by
    have hpeel := split_frames_cons_frame START_BYTE mid2 [] (by decide) h2
    rw [split_frames_nil] at hpeel
    simpa using hpeel
  rw [hsf2]
  rfl

/-- Witness for C7 on two concrete 8-byte frames. -/
theorem claim_C7_witness :
    read_packet_split ((START_BYTE :: ([0, 0, 0, 0, 0, 0] ++ [STOP_BYTE])) ++
        (START_BYTE :: ([1, 1, 1, 1, 1, 1] ++ [STOP_BYTE]))) =
      .ok (some [START_BYTE :: ([0, 0, 0, 0, 0, 0] ++ [STOP_BYTE]),
        START_BYTE :: ([1, 1, 1, 1, 1, 1] ++ [STOP_BYTE])]) :=
  claim_C7_two_frames [0, 0, 0, 0, 0, 0] [1, 1, 1, 1, 1, 1]
    (by decide) (by decide) (by decide)

/-- `max_motomed_values = 100`, the Actual-Values ring capacity. -/
def max_motomed_values : Nat := 100

/-- `max_phase_result = 1`, the Phase-Result ring capacity. -/
def max_phase_result : Nat := 1

/-- The storage step closing `_actual_values_ack`: a `None` buffer becomes
the one-sample array; below `max_motomed_values` columns the sample is
appended; otherwise the oldest column is dropped (`[:, 1:]`) before
appending.  The `3 × k` numpy array is modelled as the list of its `k`
column samples. -/
def store_motomed_value {α : Type} (buf : Option (List α)) (s : α) : List α :=
  match buf with
  | none => [s]
  | some b => if b.length < max_motomed_values then b ++ [s] else b.drop 1 ++ [s]

/-- The storage step closing `_phase_result_ack`, identical but with
capacity `max_phase_result = 1`. -/
def store_phase_result {α : Type} (buf : Option (List α)) (s : α) : List α :=
  match buf with
  | none => [s]
  | some b => if b.length < max_phase_result then b ++ [s] else b.drop 1 ++ [s]

/-- Arrival of a sample sequence into the initially-`None` Actual-Values
buffer. -/
def run_motomed_store {α : Type} (samples : List α) : Option (List α) :=
  samples.foldl (fun b s => some (store_motomed_value b s)) none

/-- Arrival of a sample sequence into the initially-`None` Phase-Result
buffer. -/
def run_phase_store {α : Type} (samples : List α) : Option (List α) :=
  samples.foldl (fun b s => some (store_phase_result b s)) none

/-- The Actual-Values storage fold, with its buffer generalised: a nonempty
buffer of at most 100 samples evolves to the last 100 samples of
buffer-then-arrivals. -/
theorem store_motomed_foldl {α : Type} (l : List α) :
    ∀ (acc : List α), acc ≠ [] → acc.length ≤ 100 →
      List.foldl (fun b s => some (store_motomed_value b s)) (some acc) l =
        some ((acc ++ l).drop (acc.length + l.length - 100)) := by
  induction l with
  | nil =>
    intro acc hne hle
    simp [Nat.sub_eq_zero_of_le hle]
  | cons s rest ih =>
    intro acc hne hle
    simp only [List.foldl_cons]
    by_cases hlt : acc.length < 100
    · have hstep : store_motomed_value (some acc) s = acc ++ [s] := by
        rw [store_motomed_value]
        exact if_pos hlt
      rw [hstep, ih (acc ++ [s]) (by simp) (by simp; omega)]
      have harr : acc ++ [s] ++ rest = acc ++ s :: rest := by simp
      have hcnt : (acc ++ [s]).length + rest.length - 100 =
          acc.length + (s :: rest).length - 100 := by simp; omega
      rw [harr, hcnt]
    · have h100 : acc.length = 100 := by omega
      have hstep : store_motomed_value (some acc) s = acc.drop 1 ++ [s] := by
        rw [store_motomed_value]
        exact if_neg hlt
      rw [hstep, ih (acc.drop 1 ++ [s]) (by simp) (by simp; omega)]
      have hlen' : (acc.drop 1 ++ [s]).length + rest.length - 100 = rest.length := by
        simp [h100]
      have harr : acc.drop 1 ++ [s] ++ rest = (acc ++ s :: rest).drop 1 := by
        rw [List.drop_append_of_le_length (by omega)]
        simp
      rw [hlen', harr, List.drop_drop]
      have hcnt : acc.length + (s :: rest).length - 100 = 1 + rest.length := by
        simp [h100]
        omega
      rw [hcnt]

/-- The Phase-Result storage fold: a one-sample buffer always evolves to the
most recent sample. -/
theorem store_phase_foldl {α : Type} (l : List α) :
    ∀ (x : α),
      List.foldl (fun b s => some (store_phase_result b s)) (some [x]) l =
        some [(x :: l).getLast (List.cons_ne_nil x l)] := by
  induction l with
  | nil => intro x; rfl
  | cons s rest ih =>
    intro x
    simp only [List.foldl_cons]
    have hstep : store_phase_result (some [x]) s = [s] := by rfl
    rw [hstep, ih s, List.getLast_cons (List.cons_ne_nil s rest)]

/-- C9: the Actual-Values buffer never exceeds 100 samples, holds exactly the
last 100 in insertion order once more than 100 samples have arrived, and the
Phase-Result buffer always holds exactly the most recent sample. -/
theorem claim_C9_ring_buffers {α : Type} (samples : List α) :
    (∀ b, run_motomed_store samples = some b → b.length ≤ 100) ∧
      (100 < samples.length →
        run_motomed_store samples = some (samples.drop (samples.length - 100))) ∧
      (∀ (x : α) (rest : List α), samples = x :: rest →
        run_phase_store samples =
          some [(x :: rest).getLast (List.cons_ne_nil x rest)]) := by
  refine ⟨?_, ?_, ?_⟩
  · intro b hb
    cases samples with
    | nil => simp [run_motomed_store] at hb
    | cons s rest =>
      rw [run_motomed_store, List.foldl_cons] at hb
      have hstep : store_motomed_value (none : Option (List α)) s = [s] := rfl
      rw [hstep, store_motomed_foldl rest [s] (by simp) (by simp)] at hb
      have hblen := congrArg (fun o => (o.getD []).length) hb
      simp at hblen
      omega
  · intro hlen
    cases samples with
    | nil => simp at hlen
    | cons s rest =>
      rw [run_motomed_store, List.foldl_cons]
      have hstep : store_motomed_value (none : Option (List α)) s = [s] := rfl
      rw [hstep, store_motomed_foldl rest [s] (by simp) (by simp)]
      have harr : ([s] : List α) ++ rest = s :: rest := rfl
      have hcnt : ([s] : List α).length + rest.length - 100 = (s :: rest).length - 100 := by
        simp
        omega
      rw [harr, hcnt]
  · intro x rest hx
    subst hx
    rw [run_phase_store, List.foldl_cons]
    have hstep : store_phase_result (none : Option (List α)) x = [x] := rfl
    rw [hstep, store_phase_foldl rest x]

/-- Witness for C9: 105 numbered samples leave the Actual-Values buffer
holding samples 6 through 105 and the Phase-Result buffer holding only
sample 105. -/
theorem claim_C9_witness :
    run_motomed_store (List.range 105) =
        some ((List.range 105).drop ((List.range 105).length - 100)) ∧
      run_phase_store (List.range 105) =
        some [(0 :: List.range' 1 104).getLast (List.cons_ne_nil 0 (List.range' 1 104))] :=
  ⟨(claim_C9_ring_buffers (List.range 105)).2.1 (by simp),
    (claim_C9_ring_buffers (List.range 105)).2.2 0 (List.range' 1 104) (by decide)⟩

/-- `_watchdog`, under a modelled clock.  The schedule supplies, for each
loop iteration, the `time.time()` reading `t` (ms) and the value of the
shared `reha_connected` flag as observed by the `is_connected()` guard at
the top of the iteration; `time_last_cmd` is threaded through the loop, a
transmitted keep-alive setting it to the current reading (as
`_send_generic_packet` does), and `sleep(0.5)` merely shapes the subsequent
readings the schedule provides.  Returns the clock times of the keep-alive
transmissions, in order. -/
def watchdog_run (sched : List (Int × Bool)) (tlc : Int) : List Int :=
  match sched with
  | [] => []
  | (t, conn) :: rest =>
    if (is_connected ⟨tlc, conn⟩ t).1 then
      if t - tlc > 500 then t :: watchdog_run rest t
      else watchdog_run rest tlc
    else []

/-- C10: under a modelled clock whose last-command timestamp is never in the
future, an iteration transmits a keep-alive exactly when the connected flag
is observed true at its top and more than 500 ms have elapsed since the last
transmitted command (the transmission resetting the idle timer to the
current reading); the loop continues without transmitting when connected but
not yet idle for 500 ms, and terminates — ignoring the remaining schedule,
so never transmitting again — the moment the flag is observed false; an
exhausted schedule has transmitted nothing further. -/
theorem claim_C10_watchdog (t : Int) (conn : Bool) (rest : List (Int × Bool))
    (tlc : Int) (hclock : tlc ≤ t) :
    watchdog_run ((t, conn) :: rest) tlc =
        (if conn = true ∧ 500 < t - tlc then t :: watchdog_run rest t
          else if conn = true then watchdog_run rest tlc
          else []) ∧
      watchdog_run [] tlc = [] := by
  refine ⟨?_, rfl⟩
  have hnotfut : ¬ (tlc - t > 1200) := by omega
  cases conn with
  | false => simp [watchdog_run, is_connected]
  | true =>
    by_cases hidle : 500 < t - tlc
    · simp [watchdog_run, is_connected, hnotfut, hidle]
    · simp [watchdog_run, is_connected, hnotfut, hidle]

/-- Witness for C10: one connected iteration at reading 600 ms with the last
command at 0 ms. -/
theorem claim_C10_witness :
    watchdog_run [((600 : Int), true)] 0 =
        (if true = true ∧ 500 < (600 : Int) - 0 then 600 :: watchdog_run [] 600
          else if true = true then watchdog_run [] 0
          else []) ∧
      watchdog_run [] (0 : Int) = [] :=
  claim_C10_watchdog 600 true [] 0 (by decide)

end RehastimGeneric
